/-
Verification of the Invoice-Processing-Agent core framework
(`invoice_agent/framework.py` and the storage tool) against its
natural-language specification.

The Python code is shallowly embedded: Python dicts become ordered
association lists over `String` keys, Python values become the inductive
`PyVal`, exceptions become `Except String`, and the Gemini message types
(`Content`, `Part`, `FunctionCall`, `FunctionResponse`) become plain Lean
structures.  The model-generation collaborator is abstracted as a function
from the request (conversation history, formatted tool declarations,
system instruction) to a reply `Content`, exactly the data the source
passes to `generate_response`.
-/
import Mathlib

namespace InvoiceAgent

/-! ## Python values

A small universe of Python values, sufficient for everything the claims
touch: `None`, booleans, integers, strings, lists and string-keyed
dicts. -/

inductive PyVal where
  | none
  | bool (b : Bool)
  | int (n : Int)
  | str (s : String)
  | list (xs : List PyVal)
  | dict (entries : List (String × PyVal))

/-! ## Python dict primitives

Python dicts are insertion-ordered maps.  `dictGet` is `d.get(k)`;
`dictSet` is `d[k] = v` (replace in place when the key is present,
append otherwise).  Keys are unique in a real Python dict; `dictSet`
replaces the first occurrence, which agrees with `dictGet` reading the
first occurrence. -/

def dictGet {α : Type} (d : List (String × α)) (k : String) : Option α :=
  match d with
  | [] => Option.none
  | (k', v) :: rest => if k' = k then some v else dictGet rest k

def dictSet {α : Type} (d : List (String × α)) (k : String) (v : α) :
    List (String × α) :=
  match d with
  | [] => [(k, v)]
  | (k', v') :: rest =>
      if k' = k then (k, v) :: rest else (k', v') :: dictSet rest k v

theorem dictGet_dictSet {α : Type} (d : List (String × α)) (k k' : String)
    (v : α) :
    dictGet (dictSet d k v) k' = if k = k' then some v else dictGet d k' := by
  induction d with
  | nil => by_cases h : k = k' <;> simp [dictSet, dictGet, h]
  | cons hd tl ih =>
      obtain ⟨k₀, v₀⟩ := hd
      by_cases h₀ : k₀ = k
      · subst h₀
        by_cases h₁ : k₀ = k' <;> simp [dictSet, dictGet, h₁]
      · by_cases h₁ : k₀ = k'
        · subst h₁
          have hkk : ¬k = k₀ := fun he => h₀ he.symm
          simp [dictSet, dictGet, h₀, hkk]
        · simp [dictSet, dictGet, h₀, h₁, ih]

/-- Number of entries stored under key `k`. -/
def countKey {α : Type} (d : List (String × α)) (k : String) : Nat :=
  (d.filter (fun p => p.1 = k)).length

theorem countKey_eq_zero_of_not_mem {α : Type} (d : List (String × α))
    (k : String) (h : k ∉ d.map Prod.fst) : countKey d k = 0 := by
  simp only [countKey, List.length_eq_zero, List.filter_eq_nil_iff]
  intro p hp
  simp only [decide_eq_true_eq]
  intro hpk
  exact h (hpk ▸ List.mem_map_of_mem Prod.fst hp)

theorem countKey_dictSet {α : Type} (d : List (String × α)) (k : String)
    (v : α) (hn : (d.map Prod.fst).Nodup) :
    countKey (dictSet d k v) k = 1 := by
  induction d with
  | nil => simp [dictSet, countKey]
  | cons hd tl ih =>
      obtain ⟨k₀, v₀⟩ := hd
      simp only [List.map_cons, List.nodup_cons] at hn
      by_cases h₀ : k₀ = k
      · subst h₀
        have h0 : countKey tl k₀ = 0 := countKey_eq_zero_of_not_mem tl k₀ hn.1
        simp only [dictSet, if_pos rfl, countKey, List.filter_cons,
          decide_eq_true_eq]
        simp only [countKey] at h0
        simp [h0]
      · have ih' := ih hn.2
        simp only [dictSet, if_neg h₀, countKey, List.filter_cons,
          decide_eq_true_eq]
        simp only [countKey] at ih'
        simp [h₀, ih']

theorem dictSet_keys {α : Type} (d : List (String × α)) (k : String) (v : α) :
    ((dictSet d k v).map Prod.fst) ⊆ k :: d.map Prod.fst := by
  induction d with
  | nil => simp [dictSet]
  | cons hd tl ih =>
      obtain ⟨k₀, v₀⟩ := hd
      by_cases h₀ : k₀ = k
      · subst h₀
        simp only [dictSet, if_pos rfl, List.map_cons]
        intro a ha
        rcases List.mem_cons.mp ha with ha | ha
        · exact List.mem_cons.mpr (Or.inl ha)
        · exact List.mem_cons.mpr (Or.inr (List.mem_cons.mpr (Or.inr ha)))
      · simp only [dictSet, if_neg h₀, List.map_cons]
        intro a ha
        rcases List.mem_cons.mp ha with ha | ha
        · exact List.mem_cons.mpr (Or.inr (List.mem_cons.mpr (Or.inl ha)))
        · rcases List.mem_cons.mp (ih ha) with ha | ha
          · exact List.mem_cons.mpr (Or.inl ha)
          · exact List.mem_cons.mpr (Or.inr (List.mem_cons.mpr (Or.inr ha)))

theorem dictSet_nodup_keys {α : Type} (d : List (String × α)) (k : String)
    (v : α) (hn : (d.map Prod.fst).Nodup) :
    ((dictSet d k v).map Prod.fst).Nodup := by
  induction d with
  | nil => simp [dictSet]
  | cons hd tl ih =>
      obtain ⟨k₀, v₀⟩ := hd
      simp only [List.map_cons, List.nodup_cons] at hn
      by_cases h₀ : k₀ = k
      · subst h₀
        have : ((k₀, v) :: tl).map Prod.fst = k₀ :: tl.map Prod.fst := rfl
        simp only [dictSet, if_pos rfl, if_true, this, List.nodup_cons]
        exact ⟨hn.1, hn.2⟩
      · simp only [dictSet, if_neg h₀, List.map_cons, List.nodup_cons]
        refine ⟨fun hmem => ?_, ih hn.2⟩
        rcases List.mem_cons.mp (dictSet_keys tl k v hmem) with h | h
        · exact h₀ h
        · exact hn.1 h

/-! ## `ActionContext` (framework.py lines 13-31)

```python
class ActionContext:
    def __init__(self, initial_data=None): self._data = initial_data or {}
    def get(self, key, default=None): return self._data.get(key, default)
    def set(self, key, value): self._data[key] = value
    def __contains__(self, key): return key in self._data
```
-/

structure ActionContext where
  data : List (String × PyVal)

namespace ActionContext

def get (c : ActionContext) (key : String) (default : PyVal := .none) : PyVal :=
  (dictGet c.data key).getD default

def set (c : ActionContext) (key : String) (value : PyVal) : ActionContext :=
  ⟨dictSet c.data key value⟩

def contains (c : ActionContext) (key : String) : Bool :=
  (dictGet c.data key).isSome

end ActionContext

theorem ActionContext.get_set (c : ActionContext) (k k' : String)
    (v d : PyVal) :
    (c.set k v).get k' d = if k = k' then v else c.get k' d := by
  simp only [ActionContext.get, ActionContext.set, dictGet_dictSet]
  by_cases h : k = k'
  · simp [h]
  · simp [h]

/-! ## Sequences of `set`/`get` operations on one context (for C7) -/

inductive CtxOp where
  | set (key : String) (value : PyVal)
  | get (key : String) (default : PyVal)

/-- Run a sequence of operations.  `set` mutates the context; `get` only
reads (`ActionContext.get` has no side effect in the source). -/
def runOps (c : ActionContext) : List CtxOp → ActionContext
  | [] => c
  | CtxOp.set k v :: rest => runOps (c.set k v) rest
  | CtxOp.get _ _ :: rest => runOps c rest

/-- The value written by the most recent `set` for `key` in the sequence,
if any. -/
def lastSet (ops : List CtxOp) (key : String) : Option PyVal :=
  match ops with
  | [] => Option.none
  | op :: rest =>
      match lastSet rest key with
      | some v => some v
      | Option.none =>
          match op with
          | CtxOp.set k v => if k = key then some v else Option.none
          | CtxOp.get _ _ => Option.none

theorem runOps_get (c : ActionContext) (ops : List CtxOp) (key : String)
    (d : PyVal) :
    (runOps c ops).get key d =
      match lastSet ops key with
      | some v => v
      | Option.none => c.get key d := by
  induction ops generalizing c with
  | nil => simp [runOps, lastSet]
  | cons op rest ih =>
      cases op with
      | set k v =>
          simp only [runOps, lastSet]
          rw [ih]
          cases hls : lastSet rest key with
          | none =>
              simp only [ActionContext.get_set]
              by_cases h : k = key <;> simp [h]
          | some w => simp
      | get k dflt =>
          simp only [runOps, lastSet]
          rw [ih]
          cases hls : lastSet rest key with
          | none => simp
          | some w => simp

/-! ## Gemini message model

The source manipulates `google.genai.types` objects.  Each `Part` the
code constructs or inspects carries exactly one of `text`,
`function_call`, `function_response`; truthiness tests (`if p.text`,
`if p.function_call`) are reflected by the `Option`-returning
projections below (an empty string is falsy in Python). -/

structure FunctionCall where
  name : String
  args : List (String × PyVal)

structure FunctionResponse where
  name : String
  response : List (String × PyVal)

inductive Part where
  | text (s : String)
  | functionCall (fc : FunctionCall)
  | functionResponse (fr : FunctionResponse)

structure Content where
  role : String
  parts : List Part

/-- `p.function_call` as used in `[p for p in parts if p.function_call]`. -/
def Part.functionCallOf : Part → Option FunctionCall
  | .functionCall fc => some fc
  | _ => Option.none

/-- `p.text` as used in `[p.text for p in parts if p.text]`: the text
field when it is truthy (non-`None` and non-empty). -/
def Part.truthyText : Part → Option String
  | .text s => if s = "" then Option.none else some s
  | _ => Option.none

/-- The tool-invocation requests contained in a model reply. -/
def functionCalls (c : Content) : List FunctionCall :=
  c.parts.filterMap Part.functionCallOf

/-- The truthy text segments of a model reply. -/
def textSegments (c : Content) : List String :=
  c.parts.filterMap Part.truthyText

/-! ## Stringification used when wrapping tool results

`framework.py` wraps a non-dict tool return as
`{"result": json.dumps(result) if isinstance(result, list) else str(result)}`. -/

/-- Python `repr` on the embedded values (used by `str` on containers). -/
def pyRepr : PyVal → String
  | .none => "None"
  | .bool true => "True"
  | .bool false => "False"
  | .int n => toString n
  | .str s => "\x27" ++ s ++ "\x27"
  | .list xs =>
      "[" ++ String.intercalate ", " (xs.attach.map fun x => pyRepr x.1) ++ "]"
  | .dict es =>
      "\x7b" ++
        String.intercalate ", "
          (es.attach.map fun e => "\x27" ++ e.1.1 ++ "\x27: " ++ pyRepr e.1.2)
        ++ "\x7d"
decreasing_by
  all_goals simp_wf
  all_goals first
    | (have h := List.sizeOf_lt_of_mem x.2
       omega)
    | (have h := List.sizeOf_lt_of_mem e.2
       have h2 : sizeOf e.1.2 < sizeOf e.1 := by
         obtain ⟨⟨a, b⟩, hm⟩ := e
         simp
       omega)

/-- Python `str`. -/
def pyStr : PyVal → String
  | .str s => s
  | v => pyRepr v

/-- Python `json.dumps` (modulo string escaping, which no claim touches). -/
def jsonDumps : PyVal → String
  | .none => "null"
  | .bool true => "true"
  | .bool false => "false"
  | .int n => toString n
  | .str s => "\"" ++ s ++ "\""
  | .list xs =>
      "[" ++ String.intercalate ", " (xs.attach.map fun x => jsonDumps x.1) ++ "]"
  | .dict es =>
      "\x7b" ++
        String.intercalate ", "
          (es.attach.map fun e => "\"" ++ e.1.1 ++ "\": " ++ jsonDumps e.1.2)
        ++ "\x7d"
decreasing_by
  all_goals simp_wf
  all_goals first
    | (have h := List.sizeOf_lt_of_mem x.2
       omega)
    | (have h := List.sizeOf_lt_of_mem e.2
       have h2 : sizeOf e.1.2 < sizeOf e.1 := by
         obtain ⟨⟨a, b⟩, hm⟩ := e
         simp
       omega)

/-- The `result_data` expression of `Agent.process`: a dict passes through
as-is, a list is JSON-encoded under `"result"`, anything else is
`str`-ed under `"result"`. -/
def resultData : PyVal → List (String × PyVal)
  | .dict d => d
  | .list xs => [("result", .str (jsonDumps (.list xs)))]
  | v => [("result", .str (pyStr v))]

/-! ## Tools

A registry entry (`tool_info` in framework.py) seen through the two ways
the loop uses it: its `inspect.signature` data (consumed by
`format_tools`) and its callable (consumed by dispatch).  The callable is
embedded as a state transformer on the shared `ActionContext` returning
either a value or the message of a raised exception; the
`action_context` injection performed by the loop is absorbed into this
signature (a tool that does not declare the parameter simply ignores and
returns the context unchanged). -/

inductive PyAnnotation where
  | str
  | int
  | float
  | bool
  | dict
  | list
  | empty
  | other (typeName : String)
deriving Repr, DecidableEq

structure Param where
  name : String
  annotation : PyAnnotation
  hasDefault : Bool
deriving Repr, DecidableEq

structure ToolEntry where
  doc : String
  params : List Param
  run : ActionContext → List (String × PyVal) → Except String PyVal × ActionContext

/-! ## Schema formatter
(`AgentFunctionCallingActionLanguage.format_tools`, framework.py 189-221) -/

/-- `type_map.get(param.annotation, "string")`. -/
def typeMapGet : PyAnnotation → String
  | .str => "string"
  | .int => "integer"
  | .float => "number"
  | .bool => "boolean"
  | .dict => "object"
  | .list => "array"
  | .empty => "string"
  | .other _ => "string"

structure ToolDecl where
  name : String
  description : String
  properties : List (String × String)
  required : List String
deriving Repr, DecidableEq

/-- One iteration of the parameter loop of `format_tools`: skip
`action_context`, record the JSON type of every other parameter, and
append defaultless parameters to `required`. -/
def formatParamsStep (acc : List (String × String) × List String)
    (p : Param) : List (String × String) × List String :=
  if p.name = "action_context" then acc
  else (dictSet acc.1 p.name (typeMapGet p.annotation),
        if p.hasDefault then acc.2 else acc.2 ++ [p.name])

/-- The parameter loop of `format_tools`. -/
def formatParams (params : List Param) : List (String × String) × List String :=
  params.foldl formatParamsStep ([], [])

def format_tools (tools : List (String × ToolEntry)) : List ToolDecl :=
  tools.map fun t =>
    let ps := formatParams t.2.params
    { name := t.1, description := t.2.doc,
      properties := ps.1, required := ps.2 }

/-! ## The control loop (`Agent.process`, framework.py 309-379) -/

def maxIterationsMessage : String :=
  "Maximum iterations reached without a final response."

/-- The request data `Agent.process` hands to `self._generate_response`
on each model call. -/
structure GenRequest where
  messages : List Content
  tools : Option (List ToolDecl)
  system : String

/-- The model-generation collaborator, abstracted as a function of the
request; its result stands for `response.candidates[0].content`. -/
abbrev Model := GenRequest → Content

/-- The inner dispatch loop over one turn's requested invocations:
look the tool up, run it (errors captured, never propagated), wrap the
result or error payload, and thread the shared context left to right. -/
def dispatchCalls (tools : List (String × ToolEntry)) :
    ActionContext → List FunctionCall → List Part × ActionContext
  | ctx, [] => ([], ctx)
  | ctx, fc :: rest =>
      match dictGet tools fc.name with
      | some info =>
          let rc := info.run ctx fc.args
          let part :=
            match rc.1 with
            | .ok v => Part.functionResponse ⟨fc.name, resultData v⟩
            | .error e => Part.functionResponse ⟨fc.name, [("error", .str e)]⟩
          let rest' := dispatchCalls tools rc.2 rest
          (part :: rest'.1, rest'.2)
      | Option.none =>
          let part := Part.functionResponse
            ⟨fc.name, [("error", .str ("Unknown tool " ++ fc.name))]⟩
          let rest' := dispatchCalls tools ctx rest
          (part :: rest'.1, rest'.2)

structure LoopOutcome where
  result : String
  messages : List Content
  ctx : ActionContext
  callLog : List GenRequest

/-- The `for _ in range(max_iterations)` loop of `Agent.process`, with
the remaining iteration budget as fuel.  `callLog` records each request
sent to the model. -/
def agentLoop (model : Model) (tools : List (String × ToolEntry))
    (fmtTools : Option (List ToolDecl)) (system : String) :
    Nat → List Content → ActionContext → List GenRequest → LoopOutcome
  | 0, msgs, ctx, log => ⟨maxIterationsMessage, msgs, ctx, log⟩
  | fuel + 1, msgs, ctx, log =>
      if (functionCalls (model ⟨msgs, fmtTools, system⟩)).isEmpty then
        ⟨String.intercalate "\n" (textSegments (model ⟨msgs, fmtTools, system⟩)),
         msgs ++ [model ⟨msgs, fmtTools, system⟩], ctx,
         log ++ [⟨msgs, fmtTools, system⟩]⟩
      else
        agentLoop model tools fmtTools system fuel
          (msgs ++ [model ⟨msgs, fmtTools, system⟩] ++
            [⟨"user",
              (dispatchCalls tools ctx
                (functionCalls (model ⟨msgs, fmtTools, system⟩))).1⟩])
          (dispatchCalls tools ctx
            (functionCalls (model ⟨msgs, fmtTools, system⟩))).2
          (log ++ [⟨msgs, fmtTools, system⟩])

/-! ## The `Agent` (framework.py 262-379) -/

structure Goal where
  name : String
  description : String

/-- `Agent._build_system_prompt`: `"## {name}\n{description}"` blocks
joined by blank lines. -/
def buildSystemPrompt (goals : List Goal) : String :=
  String.intercalate "\n\n"
    (goals.map fun goal => "## " ++ goal.name ++ "\n" ++ goal.description)

/-- The mutable state of an `Agent` instance together with its
constructor arguments: goals, the registry snapshot used both for
formatting and dispatch, the environment's shared context, and the
instance-lifetime `self._messages` list. -/
structure AgentState where
  goals : List Goal
  tools : List (String × ToolEntry)
  ctx : ActionContext
  messages : List Content

structure ProcessResult where
  result : String
  state : AgentState
  callLog : List GenRequest

/-- `Agent.process`: append the user turn, then run the bounded loop
(cap 10).  `formatted_tools if formatted_tools else None` becomes the
`Option` below. -/
def process (model : Model) (st : AgentState) (userInput : String) :
    ProcessResult :=
  let formattedTools := format_tools st.tools
  let systemPrompt := buildSystemPrompt st.goals
  let msgs0 := st.messages ++ [Content.mk "user" [Part.text userInput]]
  let out := agentLoop model st.tools
    (if formattedTools.isEmpty then Option.none else some formattedTools)
    systemPrompt 10 msgs0 st.ctx []
  ⟨out.result, { st with messages := out.messages, ctx := out.ctx },
    out.callLog⟩

/-! ## The storage tool (for C6) -/

def storeInvoiceError : String := "Invoice data must include an invoice number"

/-- The success dict `store_invoice` returns (shape taken from the
`TestStoreInvoice` suite: status, a message naming the identifier, and
the identifier itself). -/
def storeResult (ident : String) : List (String × PyVal) :=
  [("status", PyVal.str "success"),
   ("message", PyVal.str ("Invoice " ++ ident ++ " stored successfully")),
   ("invoice_number", PyVal.str ident)]

/-- Modelled from the spec: `store_invoice` lives in
`invoice_agent/tools.py`, which is imported throughout the repository
but is not among the provided source files (only its tests and callers
are).  Behaviour follows spec sections 6 and 7(e) and the
`TestStoreInvoice` suite: a record lacking a non-empty string
`invoice_number` is rejected with a descriptive failure before any
mutation; otherwise the record is stored under that identifier in the
`invoice_storage` mapping of the context (created on first use),
last write winning, and a success dict is returned. -/
def store_invoice (ctx : ActionContext) (invoice : List (String × PyVal)) :
    Except String (List (String × PyVal)) × ActionContext :=
  match dictGet invoice "invoice_number" with
  | some (PyVal.str s) =>
      if s = "" then (.error storeInvoiceError, ctx)
      else
        let storage :=
          match ctx.get "invoice_storage" PyVal.none with
          | PyVal.dict d => d
          | _ => []
        let ctx' := ctx.set "invoice_storage"
          (PyVal.dict (dictSet storage s (PyVal.dict invoice)))
        (.ok (storeResult s), ctx')
  | _ => (.error storeInvoiceError, ctx)

/-- The `invoice_storage` mapping of a context (empty if unset). -/
def storageOf (ctx : ActionContext) : List (String × PyVal) :=
  match ctx.get "invoice_storage" PyVal.none with
  | PyVal.dict d => d
  | _ => []

/-! ## The tool registry with Python object identity (for C8)

C8 is about aliasing: whether mutating the collection a lookup returns
affects the registry.  That is invisible in a purely functional
embedding, so the registry dicts live in an explicit heap of dict
objects addressed by `Nat` references.  `_registered_tools` is the dict
object at `globalReg`; `PythonActionRegistry.self._tools` is the dict
object at `toolsRef`. -/

structure ToolRec where
  name : String
  tags : List String
  doc : String
deriving Repr, DecidableEq

abbrev ToolDict := List (String × ToolRec)

structure RegWorld where
  heap : List (Nat × ToolDict)
  next : Nat
  globalReg : Nat
deriving Repr, DecidableEq

/-- Read the dict object at reference `r`. -/
def derefH (h : List (Nat × ToolDict)) (r : Nat) : ToolDict :=
  match h with
  | [] => []
  | (r', d) :: rest => if r' = r then d else derefH rest r

def RegWorld.deref (w : RegWorld) (r : Nat) : ToolDict :=
  derefH w.heap r

/-- Overwrite the dict object at reference `r` in place. -/
def writeH (h : List (Nat × ToolDict)) (r : Nat) (d : ToolDict) :
    List (Nat × ToolDict) :=
  h.map fun p => if p.1 = r then (r, d) else p

def RegWorld.write (w : RegWorld) (r : Nat) (d : ToolDict) : RegWorld :=
  { w with heap := writeH w.heap r d }

/-- Allocate a fresh dict object. -/
def RegWorld.alloc (w : RegWorld) (d : ToolDict) : Nat × RegWorld :=
  (w.next, { w with heap := w.heap ++ [(w.next, d)], next := w.next + 1 })

/-- The `@register_tool` decorator's effect:
`_registered_tools[func.__name__] = tool_info`. -/
def registerTool (w : RegWorld) (rec : ToolRec) : RegWorld :=
  w.write w.globalReg (dictSet (w.deref w.globalReg) rec.name rec)

/-- `get_registered_tools`: `return _registered_tools.copy()` — a fresh
dict object holding the same entries. -/
def get_registered_tools (w : RegWorld) : Nat × RegWorld :=
  w.alloc (w.deref w.globalReg)

/-- `PythonActionRegistry.self`, holding the reference stored in
`self._tools`. -/
structure PythonActionRegistry where
  toolsRef : Nat
deriving Repr, DecidableEq

/-- `PythonActionRegistry.__init__`: `self._tools = {}` (a fresh dict). -/
def PythonActionRegistry.init (w : RegWorld) :
    PythonActionRegistry × RegWorld :=
  let a := w.alloc []
  (⟨a.1⟩, a.2)

/-- `load_tools`: `self._tools = get_registered_tools()`. -/
def PythonActionRegistry.load_tools (w : RegWorld) :
    PythonActionRegistry × RegWorld :=
  let a := get_registered_tools w
  (⟨a.1⟩, a.2)

/-- `get_tools`: `if not self._tools: self.load_tools(); return
self._tools` — note that it returns the internal dict object itself,
not a copy. -/
def PythonActionRegistry.get_tools (reg : PythonActionRegistry)
    (w : RegWorld) : Nat × PythonActionRegistry × RegWorld :=
  if w.deref reg.toolsRef = [] then
    let a := PythonActionRegistry.load_tools w
    (a.1.toolsRef, a.1, a.2)
  else (reg.toolsRef, reg, w)

/-- `get_tool`: `return self.get_tools().get(name)`. -/
def PythonActionRegistry.get_tool (reg : PythonActionRegistry)
    (w : RegWorld) (name : String) :
    Option ToolRec × PythonActionRegistry × RegWorld :=
  let g := reg.get_tools w
  (dictGet (g.2.2.deref g.1) name, g.2.1, g.2.2)

/-- A client mutating a dict object it was handed: `d[k] = rec`. -/
def mutateRef (w : RegWorld) (r : Nat) (k : String) (rec : ToolRec) :
    RegWorld :=
  w.write r (dictSet (w.deref r) k rec)

/-- Heap sanity: every allocated reference is below `next`. -/
def RegWorld.WF (w : RegWorld) : Prop :=
  w.globalReg < w.next ∧ ∀ p ∈ w.heap, p.1 < w.next

theorem writeH_cons (n : Nat) (dd : ToolDict) (tl : List (Nat × ToolDict))
    (r : Nat) (d : ToolDict) :
    writeH ((n, dd) :: tl) r d =
      (if n = r then (r, d) else (n, dd)) :: writeH tl r d := by
  simp [writeH]

theorem derefH_cons (n : Nat) (dd : ToolDict) (tl : List (Nat × ToolDict))
    (r : Nat) :
    derefH ((n, dd) :: tl) r = if n = r then dd else derefH tl r := rfl

theorem derefH_write_ne (h : List (Nat × ToolDict)) (r r' : Nat)
    (d : ToolDict) (hne : r ≠ r') :
    derefH (writeH h r d) r' = derefH h r' := by
  induction h with
  | nil => simp [writeH, derefH]
  | cons hd tl ih =>
      obtain ⟨n, dd⟩ := hd
      rw [writeH_cons]
      by_cases hn : n = r
      · subst hn
        rw [if_pos rfl, derefH_cons, derefH_cons, if_neg hne, if_neg hne]
        exact ih
      · rw [if_neg hn, derefH_cons, derefH_cons]
        by_cases hn' : n = r'
        · rw [if_pos hn', if_pos hn']
        · rw [if_neg hn', if_neg hn']
          exact ih

theorem derefH_write_self (h : List (Nat × ToolDict)) (r : Nat)
    (d : ToolDict) (hmem : derefH h r ≠ []) :
    derefH (writeH h r d) r = d := by
  induction h with
  | nil => simp [derefH] at hmem
  | cons hd tl ih =>
      obtain ⟨n, dd⟩ := hd
      rw [writeH_cons]
      by_cases hn : n = r
      · subst hn
        rw [if_pos rfl, derefH_cons, if_pos rfl]
      · rw [derefH_cons, if_neg hn] at hmem
        rw [if_neg hn, derefH_cons, if_neg hn]
        exact ih hmem

theorem derefH_append_ne (h : List (Nat × ToolDict)) (n : Nat)
    (d : ToolDict) (r : Nat) (hne : n ≠ r) :
    derefH (h ++ [(n, d)]) r = derefH h r := by
  induction h with
  | nil => simp [derefH, if_neg hne]
  | cons hd tl ih =>
      obtain ⟨n', dd⟩ := hd
      by_cases hn' : n' = r
      · simp [derefH, hn']
      · simp only [List.cons_append, derefH, if_neg hn']
        exact ih

theorem dictSet_ne_nil {α : Type} (d : List (String × α)) (k : String)
    (v : α) : dictSet d k v ≠ [] := by
  cases d with
  | nil => simp [dictSet]
  | cons hd tl =>
      obtain ⟨k', v'⟩ := hd
      by_cases h : k' = k <;> simp [dictSet, h]

/-! ## Lemmas about the dispatch step -/

/-- The tool name a result entry reports. -/
def partName : Part → Option String
  | .functionResponse fr => some fr.name
  | _ => Option.none

theorem dispatchCalls_length (tools : List (String × ToolEntry))
    (ctx : ActionContext) (fcs : List FunctionCall) :
    (dispatchCalls tools ctx fcs).1.length = fcs.length := by
  induction fcs generalizing ctx with
  | nil => simp [dispatchCalls]
  | cons fc rest ih =>
      cases hl : dictGet tools fc.name with
      | none => simp [dispatchCalls, hl, ih]
      | some info =>
          cases hr : (info.run ctx fc.args).1 with
          | ok v => simp [dispatchCalls, hl, hr, ih]
          | error e => simp [dispatchCalls, hl, hr, ih]

theorem dispatchCalls_names (tools : List (String × ToolEntry))
    (ctx : ActionContext) (fcs : List FunctionCall) :
    (dispatchCalls tools ctx fcs).1.map partName =
      fcs.map (fun c => some c.name) := by
  induction fcs generalizing ctx with
  | nil => simp [dispatchCalls]
  | cons fc rest ih =>
      cases hl : dictGet tools fc.name with
      | none => simp [dispatchCalls, hl, partName, ih]
      | some info =>
          cases hr : (info.run ctx fc.args).1 with
          | ok v => simp [dispatchCalls, hl, hr, partName, ih]
          | error e => simp [dispatchCalls, hl, hr, partName, ih]

theorem dispatchCalls_entry_error (tools : List (String × ToolEntry))
    (ctx : ActionContext) (pre post : List FunctionCall) (fc : FunctionCall)
    (info : ToolEntry) (msg : String)
    (hlook : dictGet tools fc.name = some info)
    (herr : ∀ c : ActionContext, (info.run c fc.args).1 = Except.error msg) :
    ((dispatchCalls tools ctx (pre ++ fc :: post)).1)[pre.length]? =
      some (Part.functionResponse ⟨fc.name, [("error", PyVal.str msg)]⟩) := by
  induction pre generalizing ctx with
  | nil =>
      simp only [List.nil_append, List.length_nil, dispatchCalls, hlook,
        herr ctx]
      simp
  | cons p pre' ih =>
      cases hl : dictGet tools p.name with
      | none =>
          simp only [List.cons_append, dispatchCalls, hl, List.length_cons,
            List.getElem?_cons_succ]
          exact ih ctx
      | some pinfo =>
          cases hr : (pinfo.run ctx p.args).1 with
          | ok v =>
              simp only [List.cons_append, dispatchCalls, hl, hr,
                List.length_cons, List.getElem?_cons_succ]
              exact ih _
          | error e =>
              simp only [List.cons_append, dispatchCalls, hl, hr,
                List.length_cons, List.getElem?_cons_succ]
              exact ih _

theorem dispatchCalls_entry_unknown (tools : List (String × ToolEntry))
    (ctx : ActionContext) (pre post : List FunctionCall) (fc : FunctionCall)
    (hunk : dictGet tools fc.name = Option.none) :
    ((dispatchCalls tools ctx (pre ++ fc :: post)).1)[pre.length]? =
      some (Part.functionResponse
        ⟨fc.name, [("error", PyVal.str ("Unknown tool " ++ fc.name))]⟩) := by
  induction pre generalizing ctx with
  | nil =>
      simp only [List.nil_append, List.length_nil, dispatchCalls, hunk]
      simp
  | cons p pre' ih =>
      cases hl : dictGet tools p.name with
      | none =>
          simp only [List.cons_append, dispatchCalls, hl, List.length_cons,
            List.getElem?_cons_succ]
          exact ih ctx
      | some pinfo =>
          cases hr : (pinfo.run ctx p.args).1 with
          | ok v =>
              simp only [List.cons_append, dispatchCalls, hl, hr,
                List.length_cons, List.getElem?_cons_succ]
              exact ih _
          | error e =>
              simp only [List.cons_append, dispatchCalls, hl, hr,
                List.length_cons, List.getElem?_cons_succ]
              exact ih _

/-! ## Lemmas about the control loop -/

theorem agentLoop_step_text (model : Model) (tools : List (String × ToolEntry))
    (fmt : Option (List ToolDecl)) (sys : String) (fuel : Nat)
    (msgs : List Content) (ctx : ActionContext) (log : List GenRequest)
    (h : functionCalls (model ⟨msgs, fmt, sys⟩) = []) :
    agentLoop model tools fmt sys (fuel + 1) msgs ctx log =
      ⟨String.intercalate "\n" (textSegments (model ⟨msgs, fmt, sys⟩)),
       msgs ++ [model ⟨msgs, fmt, sys⟩], ctx, log ++ [⟨msgs, fmt, sys⟩]⟩ := by
  simp [agentLoop, h]

theorem agentLoop_step_tool (model : Model) (tools : List (String × ToolEntry))
    (fmt : Option (List ToolDecl)) (sys : String) (fuel : Nat)
    (msgs : List Content) (ctx : ActionContext) (log : List GenRequest)
    (h : functionCalls (model ⟨msgs, fmt, sys⟩) ≠ []) :
    agentLoop model tools fmt sys (fuel + 1) msgs ctx log =
      agentLoop model tools fmt sys fuel
        (msgs ++ [model ⟨msgs, fmt, sys⟩] ++
          [⟨"user",
            (dispatchCalls tools ctx
              (functionCalls (model ⟨msgs, fmt, sys⟩))).1⟩])
        (dispatchCalls tools ctx
          (functionCalls (model ⟨msgs, fmt, sys⟩))).2
        (log ++ [⟨msgs, fmt, sys⟩]) := by
  rw [agentLoop, if_neg]
  simp [h]

theorem agentLoop_always_tool (model : Model)
    (tools : List (String × ToolEntry)) (fmt : Option (List ToolDecl))
    (sys : String)
    (h : ∀ req : GenRequest, functionCalls (model req) ≠ [])
    (fuel : Nat) (msgs : List Content) (ctx : ActionContext)
    (log : List GenRequest) :
    (agentLoop model tools fmt sys fuel msgs ctx log).result =
        maxIterationsMessage ∧
      (agentLoop model tools fmt sys fuel msgs ctx log).callLog.length =
        log.length + fuel := by
  induction fuel generalizing msgs ctx log with
  | zero => simp [agentLoop]
  | succ n ih =>
      rw [agentLoop_step_tool model tools fmt sys n msgs ctx log
        (h ⟨msgs, fmt, sys⟩)]
      obtain ⟨h1, h2⟩ := ih _ _ _
      refine ⟨h1, ?_⟩
      rw [h2]
      simp
      omega

theorem agentLoop_log_ge (model : Model) (tools : List (String × ToolEntry))
    (fmt : Option (List ToolDecl)) (sys : String) (fuel : Nat)
    (msgs : List Content) (ctx : ActionContext) (log : List GenRequest) :
    log.length ≤ (agentLoop model tools fmt sys fuel msgs ctx log).callLog.length := by
  induction fuel generalizing msgs ctx log with
  | zero => simp [agentLoop]
  | succ n ih =>
      by_cases h : functionCalls (model ⟨msgs, fmt, sys⟩) = []
      · rw [agentLoop_step_text model tools fmt sys n msgs ctx log h]
        simp
      · rw [agentLoop_step_tool model tools fmt sys n msgs ctx log h]
        calc log.length ≤ (log ++ [(⟨msgs, fmt, sys⟩ : GenRequest)]).length := by
                simp
          _ ≤ _ := ih _ _ _

theorem agentLoop_log_one (model : Model) (tools : List (String × ToolEntry))
    (fmt : Option (List ToolDecl)) (sys : String) (fuel : Nat)
    (msgs : List Content) (ctx : ActionContext) (log : List GenRequest) :
    log.length + 1 ≤
      (agentLoop model tools fmt sys (fuel + 1) msgs ctx log).callLog.length := by
  by_cases h : functionCalls (model ⟨msgs, fmt, sys⟩) = []
  · rw [agentLoop_step_text model tools fmt sys fuel msgs ctx log h]
    simp
  · rw [agentLoop_step_tool model tools fmt sys fuel msgs ctx log h]
    calc log.length + 1 = (log ++ [(⟨msgs, fmt, sys⟩ : GenRequest)]).length := by
          simp
      _ ≤ _ := agentLoop_log_ge _ _ _ _ _ _ _ _

theorem agentLoop_messages_extend (model : Model)
    (tools : List (String × ToolEntry)) (fmt : Option (List ToolDecl))
    (sys : String) (fuel : Nat) (msgs : List Content) (ctx : ActionContext)
    (log : List GenRequest) :
    msgs <+: (agentLoop model tools fmt sys fuel msgs ctx log).messages := by
  induction fuel generalizing msgs ctx log with
  | zero => simp [agentLoop]
  | succ n ih =>
      by_cases h : functionCalls (model ⟨msgs, fmt, sys⟩) = []
      · rw [agentLoop_step_text model tools fmt sys n msgs ctx log h]
        exact ⟨[model ⟨msgs, fmt, sys⟩], rfl⟩
      · rw [agentLoop_step_tool model tools fmt sys n msgs ctx log h]
        refine List.IsPrefix.trans ?_ (ih _ _ _)
        rw [List.append_assoc]
        exact ⟨_, rfl⟩

theorem agentLoop_log_decomp (model : Model)
    (tools : List (String × ToolEntry)) (fmt : Option (List ToolDecl))
    (sys : String) (fuel : Nat) (msgs : List Content) (ctx : ActionContext)
    (log : List GenRequest) :
    ∃ extra : List GenRequest,
      (agentLoop model tools fmt sys fuel msgs ctx log).callLog =
          log ++ extra ∧
      (fuel ≠ 0 → extra.head? = some ⟨msgs, fmt, sys⟩) ∧
      (∀ e ∈ extra, msgs <+: e.messages ∧ e.tools = fmt ∧ e.system = sys) := by
  induction fuel generalizing msgs ctx log with
  | zero =>
      refine ⟨[], by simp [agentLoop], by simp, by simp⟩
  | succ n ih =>
      by_cases h : functionCalls (model ⟨msgs, fmt, sys⟩) = []
      · rw [agentLoop_step_text model tools fmt sys n msgs ctx log h]
        refine ⟨[⟨msgs, fmt, sys⟩], rfl, fun _ => rfl, ?_⟩
        intro e he
        rcases List.mem_singleton.mp he with rfl
        exact ⟨List.prefix_rfl, rfl, rfl⟩
      · rw [agentLoop_step_tool model tools fmt sys n msgs ctx log h]
        obtain ⟨extra, hcl, _, hall⟩ := ih
          (msgs ++ [model ⟨msgs, fmt, sys⟩] ++
            [⟨"user",
              (dispatchCalls tools ctx
                (functionCalls (model ⟨msgs, fmt, sys⟩))).1⟩])
          (dispatchCalls tools ctx
            (functionCalls (model ⟨msgs, fmt, sys⟩))).2
          (log ++ [⟨msgs, fmt, sys⟩])
        refine ⟨⟨msgs, fmt, sys⟩ :: extra, ?_, fun _ => rfl, ?_⟩
        · rw [hcl]
          simp
        · intro e he
          rcases List.mem_cons.mp he with rfl | he
          · exact ⟨List.prefix_rfl, rfl, rfl⟩
          · obtain ⟨hp, ht, hs⟩ := hall e he
            refine ⟨List.IsPrefix.trans ?_ hp, ht, hs⟩
            rw [List.append_assoc]
            exact ⟨_, rfl⟩

/-- The request `Agent.process` sends on its first model call. -/
def firstRequest (st : AgentState) (input : String) : GenRequest :=
  ⟨st.messages ++ [Content.mk "user" [Part.text input]],
   if (format_tools st.tools).isEmpty then Option.none
     else some (format_tools st.tools),
   buildSystemPrompt st.goals⟩

/-! ## Claims C1-C4 about the control loop -/

/-- C1: for every Agent whose model collaborator returns a reply
containing at least one tool-invocation request on every call,
`Agent.process` performs exactly 10 model calls and then returns the
fixed sentinel string as a normal (non-error) result. -/
theorem c1_iteration_cap (model : Model) (st : AgentState) (input : String)
    (h : ∀ req : GenRequest, functionCalls (model req) ≠ []) :
    (process model st input).result = maxIterationsMessage ∧
      (process model st input).callLog.length = 10 := by
  have hmain := agentLoop_always_tool model st.tools
    (firstRequest st input).tools (firstRequest st input).system h 10
    (firstRequest st input).messages st.ctx []
  exact ⟨hmain.1, by simpa using hmain.2⟩

def alwaysToolModel : Model :=
  fun _ => ⟨"model", [Part.functionCall ⟨"t", []⟩]⟩

def emptyAgentState : AgentState := ⟨[], [], ⟨[]⟩, []⟩

theorem c1_witness :
    (process alwaysToolModel emptyAgentState "hi").result =
        maxIterationsMessage ∧
      (process alwaysToolModel emptyAgentState "hi").callLog.length = 10 :=
  c1_iteration_cap alwaysToolModel emptyAgentState "hi"
    (fun req => by
      have hval : functionCalls (alwaysToolModel req) = [⟨"t", []⟩] := rfl
      rw [hval]
      exact List.cons_ne_nil _ _)

/-- C2: for every Agent whose first model reply contains no
tool-invocation requests, `Agent.process` terminates after exactly one
model call and returns the reply's text segments joined by newline;
if the reply has no text segments the result is the empty string. -/
theorem c2_single_model_call (model : Model) (st : AgentState)
    (input : String)
    (h : functionCalls (model (firstRequest st input)) = []) :
    (process model st input).result =
        String.intercalate "\n" (textSegments (model (firstRequest st input))) ∧
      (process model st input).callLog.length = 1 ∧
      (textSegments (model (firstRequest st input)) = [] →
        (process model st input).result = "") := by
  have hstep := agentLoop_step_text model st.tools (firstRequest st input).tools
    (firstRequest st input).system 9 (firstRequest st input).messages st.ctx []
    h
  have e1 : (process model st input).result =
      (agentLoop model st.tools (firstRequest st input).tools
        (firstRequest st input).system (9 + 1) (firstRequest st input).messages
        st.ctx []).result := rfl
  have e2 : (process model st input).callLog =
      (agentLoop model st.tools (firstRequest st input).tools
        (firstRequest st input).system (9 + 1) (firstRequest st input).messages
        st.ctx []).callLog := rfl
  rw [hstep] at e1 e2
  refine ⟨e1, by rw [e2]; rfl, fun hts => ?_⟩
  rw [e1, hts]
  rfl

def textReplyModel : Model := fun _ => ⟨"model", [Part.text "All done"]⟩

def emptyReplyModel : Model := fun _ => ⟨"model", []⟩

theorem c2_witness :
    (process textReplyModel emptyAgentState "hi").result = "All done" ∧
      (process textReplyModel emptyAgentState "hi").callLog.length = 1 ∧
      (process emptyReplyModel emptyAgentState "hi").result = "" := by
  have h1 := c2_single_model_call textReplyModel emptyAgentState "hi" rfl
  have h2 := c2_single_model_call emptyReplyModel emptyAgentState "hi" rfl
  exact ⟨h1.1.trans (by rfl), h1.2.1, h2.2.2 rfl⟩

/-- C3: for every turn of requested tool invocations, a dispatched tool
whose callable raises is captured as a result entry carrying the
exception's message as an error payload; the exception does not
propagate, every remaining invocation of the turn is still dispatched
in emitted order (one result entry per invocation, names aligned), and
the loop appends all result entries as one new conversation turn and
continues. -/
theorem c3_tool_exception_isolation (tools : List (String × ToolEntry))
    (ctx : ActionContext) (pre post : List FunctionCall) (fc : FunctionCall)
    (info : ToolEntry) (msg : String)
    (hlook : dictGet tools fc.name = some info)
    (herr : ∀ c : ActionContext, (info.run c fc.args).1 = Except.error msg) :
    (dispatchCalls tools ctx (pre ++ fc :: post)).1.length =
        (pre ++ fc :: post).length ∧
      ((dispatchCalls tools ctx (pre ++ fc :: post)).1)[pre.length]? =
        some (Part.functionResponse ⟨fc.name, [("error", PyVal.str msg)]⟩) ∧
      (dispatchCalls tools ctx (pre ++ fc :: post)).1.map partName =
        (pre ++ fc :: post).map (fun c => some c.name) ∧
      (∀ (model : Model) (fmt : Option (List ToolDecl)) (sys : String)
          (fuel : Nat) (msgs : List Content) (c : ActionContext)
          (log : List GenRequest),
        functionCalls (model ⟨msgs, fmt, sys⟩) = pre ++ fc :: post →
        agentLoop model tools fmt sys (fuel + 1) msgs c log =
          agentLoop model tools fmt sys fuel
            (msgs ++ [model ⟨msgs, fmt, sys⟩] ++
              [⟨"user", (dispatchCalls tools c (pre ++ fc :: post)).1⟩])
            (dispatchCalls tools c (pre ++ fc :: post)).2
            (log ++ [⟨msgs, fmt, sys⟩])) := by
  refine ⟨dispatchCalls_length tools ctx (pre ++ fc :: post),
    dispatchCalls_entry_error tools ctx pre post fc info msg hlook herr,
    dispatchCalls_names tools ctx (pre ++ fc :: post), ?_⟩
  intro model fmt sys fuel msgs c log hreply
  have hne : functionCalls (model ⟨msgs, fmt, sys⟩) ≠ [] := by
    rw [hreply]
    simp
  rw [agentLoop_step_tool model tools fmt sys fuel msgs c log hne, hreply]

def boomEntry : ToolEntry :=
  ⟨"", [], fun c _ => (Except.error "boom failed", c)⟩

def okEntry : ToolEntry :=
  ⟨"", [], fun c _ => (Except.ok (PyVal.str "fine"), c)⟩

def c3Tools : List (String × ToolEntry) := [("boom", boomEntry), ("ok", okEntry)]

def fcOk : FunctionCall := ⟨"ok", []⟩

def fcBoom : FunctionCall := ⟨"boom", []⟩

def c3Model : Model :=
  fun _ => ⟨"model", ([fcOk] ++ fcBoom :: [fcOk]).map Part.functionCall⟩

theorem c3_witness :
    (dispatchCalls c3Tools ⟨[]⟩ ([fcOk] ++ fcBoom :: [fcOk])).1.length =
        ([fcOk] ++ fcBoom :: [fcOk]).length ∧
      ((dispatchCalls c3Tools ⟨[]⟩
          ([fcOk] ++ fcBoom :: [fcOk])).1)[[fcOk].length]? =
        some (Part.functionResponse
          ⟨fcBoom.name, [("error", PyVal.str "boom failed")]⟩) ∧
      (dispatchCalls c3Tools ⟨[]⟩ ([fcOk] ++ fcBoom :: [fcOk])).1.map partName =
        ([fcOk] ++ fcBoom :: [fcOk]).map (fun c => some c.name) ∧
      agentLoop c3Model c3Tools Option.none "" (0 + 1) [] ⟨[]⟩ [] =
        agentLoop c3Model c3Tools Option.none "" 0
          ([] ++ [c3Model ⟨[], Option.none, ""⟩] ++
            [⟨"user",
              (dispatchCalls c3Tools ⟨[]⟩ ([fcOk] ++ fcBoom :: [fcOk])).1⟩])
          (dispatchCalls c3Tools ⟨[]⟩ ([fcOk] ++ fcBoom :: [fcOk])).2
          ([] ++ [⟨[], Option.none, ""⟩]) := by
  have h := c3_tool_exception_isolation c3Tools ⟨[]⟩ [fcOk] [fcOk] fcBoom
    boomEntry "boom failed" rfl (fun c => rfl)
  exact ⟨h.1, h.2.1, h.2.2.1, h.2.2.2 c3Model Option.none "" 0 [] ⟨[]⟩ [] rfl⟩

/-- C4: a requested tool invocation naming a tool not present in the
registry produces a result entry whose error payload references that
name (no exception is raised), and the loop proceeds to the next model
call rather than aborting: with at least two iterations of budget left,
at least two model calls happen. -/
theorem c4_unknown_tool (tools : List (String × ToolEntry))
    (ctx : ActionContext) (pre post : List FunctionCall) (fc : FunctionCall)
    (hunk : dictGet tools fc.name = Option.none) :
    (dispatchCalls tools ctx (pre ++ fc :: post)).1.length =
        (pre ++ fc :: post).length ∧
      ((dispatchCalls tools ctx (pre ++ fc :: post)).1)[pre.length]? =
        some (Part.functionResponse
          ⟨fc.name, [("error", PyVal.str ("Unknown tool " ++ fc.name))]⟩) ∧
      (∀ (model : Model) (fmt : Option (List ToolDecl)) (sys : String)
          (fuel : Nat) (msgs : List Content) (c : ActionContext)
          (log : List GenRequest),
        functionCalls (model ⟨msgs, fmt, sys⟩) = pre ++ fc :: post →
        log.length + 2 ≤
          (agentLoop model tools fmt sys (fuel + 2) msgs c log).callLog.length) := by
  refine ⟨dispatchCalls_length tools ctx (pre ++ fc :: post),
    dispatchCalls_entry_unknown tools ctx pre post fc hunk, ?_⟩
  intro model fmt sys fuel msgs c log hreply
  have hne : functionCalls (model ⟨msgs, fmt, sys⟩) ≠ [] := by
    rw [hreply]
    simp
  have hsplit : fuel + 2 = (fuel + 1) + 1 := rfl
  rw [hsplit, agentLoop_step_tool model tools fmt sys (fuel + 1) msgs c log hne]
  have hone := agentLoop_log_one model tools fmt sys fuel
    (msgs ++ [model ⟨msgs, fmt, sys⟩] ++
      [⟨"user",
        (dispatchCalls tools c (functionCalls (model ⟨msgs, fmt, sys⟩))).1⟩])
    (dispatchCalls tools c (functionCalls (model ⟨msgs, fmt, sys⟩))).2
    (log ++ [⟨msgs, fmt, sys⟩])
  calc log.length + 2 = (log ++ [(⟨msgs, fmt, sys⟩ : GenRequest)]).length + 1 := by
        simp
    _ ≤ _ := hone

def fcGhost : FunctionCall := ⟨"ghost", []⟩

def c4Model : Model := fun _ => ⟨"model", [Part.functionCall fcGhost]⟩

theorem c4_witness :
    (dispatchCalls [] ⟨[]⟩ ([] ++ fcGhost :: [])).1.length =
        ([] ++ fcGhost :: []).length ∧
      ((dispatchCalls [] ⟨[]⟩ ([] ++ fcGhost :: [])).1)[(0 : Nat)]? =
        some (Part.functionResponse
          ⟨fcGhost.name,
           [("error", PyVal.str ("Unknown tool " ++ fcGhost.name))]⟩) ∧
      (0 : Nat) + 2 ≤
        (agentLoop c4Model [] Option.none "" (0 + 2) [] ⟨[]⟩ []).callLog.length := by
  have h := c4_unknown_tool [] ⟨[]⟩ [] [] fcGhost rfl
  exact ⟨h.1, h.2.1, h.2.2 c4Model Option.none "" 0 [] ⟨[]⟩ [] rfl⟩

/-! ## Claim C5 about the schema formatter -/

theorem dictSet_mem {α : Type} (d : List (String × α)) (k : String) (v : α) :
    ∀ q ∈ dictSet d k v, q ∈ d ∨ q = (k, v) := by
  induction d with
  | nil =>
      intro q hq
      simp [dictSet] at hq
      exact Or.inr hq
  | cons hd tl ih =>
      obtain ⟨k₀, v₀⟩ := hd
      intro q hq
      by_cases h₀ : k₀ = k
      · subst h₀
        rw [dictSet, if_pos rfl] at hq
        rcases List.mem_cons.mp hq with rfl | hq
        · exact Or.inr rfl
        · exact Or.inl (List.mem_cons.mpr (Or.inr hq))
      · rw [dictSet, if_neg h₀] at hq
        rcases List.mem_cons.mp hq with rfl | hq
        · exact Or.inl (List.mem_cons.mpr (Or.inl rfl))
        · rcases ih q hq with hm | hm
          · exact Or.inl (List.mem_cons.mpr (Or.inr hm))
          · exact Or.inr hm

theorem formatParams_props_not_context (params : List Param)
    (acc : List (String × String) × List String) :
    ∀ q ∈ (params.foldl formatParamsStep acc).1,
      q ∈ acc.1 ∨ q.1 ≠ "action_context" := by
  induction params generalizing acc with
  | nil =>
      intro q hq
      exact Or.inl hq
  | cons p rest ih =>
      intro q hq
      rw [List.foldl_cons] at hq
      rcases ih (formatParamsStep acc p) q hq with hm | hm
      · by_cases hn : p.name = "action_context"
        · rw [formatParamsStep, if_pos hn] at hm
          exact Or.inl hm
        · rw [formatParamsStep, if_neg hn] at hm
          rcases dictSet_mem acc.1 p.name (typeMapGet p.annotation) q hm with
            hm' | hm'
          · exact Or.inl hm'
          · right
            rw [hm']
            exact hn
      · exact Or.inr hm

theorem formatParams_req_mono (params : List Param)
    (acc : List (String × String) × List String) (x : String)
    (hx : x ∈ acc.2) : x ∈ (params.foldl formatParamsStep acc).2 := by
  induction params generalizing acc with
  | nil => exact hx
  | cons p rest ih =>
      rw [List.foldl_cons]
      refine ih (formatParamsStep acc p) ?_
      by_cases hn : p.name = "action_context"
      · rw [formatParamsStep, if_pos hn]
        exact hx
      · rw [formatParamsStep, if_neg hn]
        by_cases hdf : p.hasDefault
        · simp only [hdf, if_true]
          exact hx
        · simp only [hdf, if_false]
          exact List.mem_append.mpr (Or.inl hx)

theorem formatParams_req_mem (params : List Param)
    (acc : List (String × String) × List String) (p : Param)
    (hp : p ∈ params) (hname : p.name ≠ "action_context")
    (hdef : p.hasDefault = false) :
    p.name ∈ (params.foldl formatParamsStep acc).2 := by
  induction params generalizing acc with
  | nil => cases hp
  | cons q rest ih =>
      rw [List.foldl_cons]
      rcases List.mem_cons.mp hp with rfl | hp
      · refine formatParams_req_mono rest (formatParamsStep acc p) p.name ?_
        rw [formatParamsStep, if_neg hname, hdef]
        simp
      · exact ih _ hp

theorem formatParams_lookup_preserved (params : List Param)
    (acc : List (String × String) × List String) (n : String)
    (habs : ∀ p ∈ params, p.name ≠ n) :
    dictGet (params.foldl formatParamsStep acc).1 n = dictGet acc.1 n := by
  induction params generalizing acc with
  | nil => rfl
  | cons p rest ih =>
      rw [List.foldl_cons]
      rw [ih _ (fun q hq => habs q (List.mem_cons.mpr (Or.inr hq)))]
      by_cases hn : p.name = "action_context"
      · rw [formatParamsStep, if_pos hn]
      · rw [formatParamsStep, if_neg hn]
        show dictGet (dictSet acc.1 p.name (typeMapGet p.annotation)) n = _
        rw [dictGet_dictSet, if_neg (habs p (List.mem_cons.mpr (Or.inl rfl)))]

theorem formatParams_lookup (params : List Param)
    (acc : List (String × String) × List String) (p : Param)
    (hp : p ∈ params) (hname : p.name ≠ "action_context")
    (hnd : (params.map Param.name).Nodup) :
    dictGet (params.foldl formatParamsStep acc).1 p.name =
      some (typeMapGet p.annotation) := by
  induction params generalizing acc with
  | nil => cases hp
  | cons q rest ih =>
      simp only [List.map_cons, List.nodup_cons] at hnd
      rw [List.foldl_cons]
      rcases List.mem_cons.mp hp with rfl | hp
      · have habs : ∀ r ∈ rest, r.name ≠ p.name := by
          intro r hr hcon
          exact hnd.1 (hcon ▸ List.mem_map_of_mem Param.name hr)
        rw [formatParams_lookup_preserved rest _ p.name habs]
        rw [formatParamsStep, if_neg hname]
        show dictGet (dictSet acc.1 p.name (typeMapGet p.annotation)) p.name = _
        rw [dictGet_dictSet, if_pos rfl]
      · exact ih _ hp hnd.2

/-- C5 (counterexample): a tool declaring the reserved `action_context`
parameter without a default.  The parameter is declared and has no
default, yet the formatter's required list for the declaration omits it
(it is skipped entirely), refuting the claim's universal required-list
clause as literally stated. -/
def c5Tool : ToolEntry :=
  ⟨"Store an extracted invoice.",
   [⟨"action_context", PyAnnotation.other "ActionContext", false⟩,
    ⟨"invoice_data", PyAnnotation.dict, false⟩],
   fun c _ => (Except.ok PyVal.none, c)⟩

theorem c5_counterexample :
    (⟨"action_context", PyAnnotation.other "ActionContext", false⟩ : Param) ∈
        c5Tool.params ∧
      (⟨"action_context", PyAnnotation.other "ActionContext",
        false⟩ : Param).hasDefault = false ∧
      (format_tools [("store_invoice", c5Tool)]).map ToolDecl.required =
        [["invoice_data"]] ∧
      "action_context" ∉
        ((format_tools [("store_invoice", c5Tool)]).map ToolDecl.required).flatten := by
  refine ⟨by simp [c5Tool], rfl, rfl, by decide⟩

/-- C5 (amended): the Schema Formatter never emits an
`action_context`-named property; every declared parameter other than the
reserved context parameter that lacks a default appears in its
declaration's required list; parameter types map
str→string, int→integer, float→number, bool→boolean, dict→object,
list→array; and an unannotated parameter type maps to string. -/
theorem c5_schema_formatter (tools : List (String × ToolEntry))
    (hnd : ∀ t ∈ tools, (t.2.params.map Param.name).Nodup) :
    (∀ d ∈ format_tools tools, ∀ q ∈ d.properties, q.1 ≠ "action_context") ∧
      (∀ t ∈ tools, ∀ p ∈ t.2.params, p.name ≠ "action_context" →
        ∃ d ∈ format_tools tools, d.name = t.1 ∧
          (p.hasDefault = false → p.name ∈ d.required) ∧
          dictGet d.properties p.name = some (typeMapGet p.annotation)) ∧
      (typeMapGet PyAnnotation.str = "string" ∧
        typeMapGet PyAnnotation.int = "integer" ∧
        typeMapGet PyAnnotation.float = "number" ∧
        typeMapGet PyAnnotation.bool = "boolean" ∧
        typeMapGet PyAnnotation.dict = "object" ∧
        typeMapGet PyAnnotation.list = "array" ∧
        typeMapGet PyAnnotation.empty = "string") := by
  refine ⟨?_, ?_, rfl, rfl, rfl, rfl, rfl, rfl, rfl⟩
  · intro d hd q hq
    rw [format_tools] at hd
    obtain ⟨t, ht, rfl⟩ := List.mem_map.mp hd
    rcases formatParams_props_not_context t.2.params ([], []) q hq with hm | hm
    · cases hm
    · exact hm
  · intro t ht p hp hname
    refine ⟨⟨t.1, t.2.doc, (formatParams t.2.params).1,
      (formatParams t.2.params).2⟩, ?_, rfl, ?_, ?_⟩
    · rw [format_tools]
      exact List.mem_map.mpr ⟨t, ht, rfl⟩
    · intro hdef
      exact formatParams_req_mem t.2.params ([], []) p hp hname hdef
    · exact formatParams_lookup t.2.params ([], []) p hp hname (hnd t ht)

theorem c5_witness :
    (∀ d ∈ format_tools [("store_invoice", c5Tool)],
      ∀ q ∈ d.properties, q.1 ≠ "action_context") ∧
      typeMapGet PyAnnotation.dict = "object" ∧
      typeMapGet PyAnnotation.empty = "string" ∧
      (∃ d ∈ format_tools [("store_invoice", c5Tool)],
        d.name = "store_invoice" ∧ "invoice_data" ∈ d.required ∧
        dictGet d.properties "invoice_data" = some "object") := by
  have h := c5_schema_formatter [("store_invoice", c5Tool)]
    (by
      intro t ht
      rcases List.mem_singleton.mp ht with rfl
      decide)
  refine ⟨h.1, h.2.2.2.2.2.2.1, h.2.2.2.2.2.2.2.2, ?_⟩
  obtain ⟨d, hd, hdname, hreq, hlook⟩ :=
    h.2.1 ("store_invoice", c5Tool) (List.mem_singleton.mpr rfl)
      ⟨"invoice_data", PyAnnotation.dict, false⟩ (by simp [c5Tool])
      (by decide)
  exact ⟨d, hd, hdname, hreq rfl, hlook⟩

/-! ## Claim C6 about the storage tool -/

theorem storageOf_set (c : ActionContext) (d : List (String × PyVal)) :
    storageOf (c.set "invoice_storage" (PyVal.dict d)) = d := by
  simp [storageOf, ActionContext.get_set]

theorem store_invoice_ok (ctx : ActionContext)
    (inv : List (String × PyVal)) (ident : String)
    (h : dictGet inv "invoice_number" = some (PyVal.str ident))
    (hid : ident ≠ "") :
    store_invoice ctx inv =
      (Except.ok (storeResult ident),
       ctx.set "invoice_storage"
         (PyVal.dict (dictSet (storageOf ctx) ident (PyVal.dict inv)))) := by
  rw [store_invoice, h]
  simp [hid, storageOf]

theorem store_invoice_rejects (ctx : ActionContext)
    (inv : List (String × PyVal))
    (hbad : dictGet inv "invoice_number" = Option.none ∨
      dictGet inv "invoice_number" = some PyVal.none ∨
      dictGet inv "invoice_number" = some (PyVal.str "")) :
    store_invoice ctx inv = (Except.error storeInvoiceError, ctx) := by
  rcases hbad with h | h | h
  · rw [store_invoice, h]
  · rw [store_invoice, h]
  · rw [store_invoice, h]
    simp

/-- C6: storing a record with a non-empty identifier twice under the
same identifier leaves exactly one stored entry for that identifier,
the one from the second write; storing a record whose identifier is
missing, empty, or null always fails with the descriptive error and
leaves the storage mapping in the Context completely unchanged. -/
theorem c6_store_last_write_wins (ctx : ActionContext)
    (inv1 inv2 : List (String × PyVal)) (ident : String) (hid : ident ≠ "")
    (h1 : dictGet inv1 "invoice_number" = some (PyVal.str ident))
    (h2 : dictGet inv2 "invoice_number" = some (PyVal.str ident))
    (hnd : ((storageOf ctx).map Prod.fst).Nodup) :
    (store_invoice ctx inv1).1 = Except.ok (storeResult ident) ∧
      (store_invoice (store_invoice ctx inv1).2 inv2).1 =
        Except.ok (storeResult ident) ∧
      dictGet (storageOf (store_invoice (store_invoice ctx inv1).2 inv2).2)
          ident = some (PyVal.dict inv2) ∧
      countKey (storageOf (store_invoice (store_invoice ctx inv1).2 inv2).2)
          ident = 1 ∧
      (∀ inv : List (String × PyVal),
        (dictGet inv "invoice_number" = Option.none ∨
          dictGet inv "invoice_number" = some PyVal.none ∨
          dictGet inv "invoice_number" = some (PyVal.str "")) →
        store_invoice ctx inv = (Except.error storeInvoiceError, ctx)) := by
  have hs1 := store_invoice_ok ctx inv1 ident h1 hid
  have hst1 : storageOf (store_invoice ctx inv1).2 =
      dictSet (storageOf ctx) ident (PyVal.dict inv1) := by
    rw [hs1]
    exact storageOf_set ctx _
  have hs2 := store_invoice_ok (store_invoice ctx inv1).2 inv2 ident h2 hid
  have hst2 : storageOf (store_invoice (store_invoice ctx inv1).2 inv2).2 =
      dictSet (dictSet (storageOf ctx) ident (PyVal.dict inv1)) ident
        (PyVal.dict inv2) := by
    rw [hs2, storageOf_set, hst1]
  refine ⟨by rw [hs1], by rw [hs2], ?_, ?_, store_invoice_rejects ctx⟩
  · rw [hst2, dictGet_dictSet, if_pos rfl]
  · rw [hst2]
    exact countKey_dictSet _ ident _ (dictSet_nodup_keys _ ident _ hnd)

def c6Inv1 : List (String × PyVal) :=
  [("invoice_number", PyVal.str "INV-1"), ("total_amount", PyVal.int 100)]

def c6Inv2 : List (String × PyVal) :=
  [("invoice_number", PyVal.str "INV-1"), ("total_amount", PyVal.int 150)]

def c6Bad : List (String × PyVal) := [("total_amount", PyVal.int 100)]

theorem c6_witness :
    (store_invoice ⟨[]⟩ c6Inv1).1 = Except.ok (storeResult "INV-1") ∧
      (store_invoice (store_invoice ⟨[]⟩ c6Inv1).2 c6Inv2).1 =
        Except.ok (storeResult "INV-1") ∧
      dictGet (storageOf (store_invoice (store_invoice ⟨[]⟩ c6Inv1).2 c6Inv2).2)
          "INV-1" = some (PyVal.dict c6Inv2) ∧
      countKey (storageOf (store_invoice (store_invoice ⟨[]⟩ c6Inv1).2 c6Inv2).2)
          "INV-1" = 1 ∧
      store_invoice ⟨[]⟩ c6Bad = (Except.error storeInvoiceError, ⟨[]⟩) := by
  have h := c6_store_last_write_wins ⟨[]⟩ c6Inv1 c6Inv2 "INV-1" (by decide)
    rfl rfl (by decide)
  exact ⟨h.1, h.2.1, h.2.2.1, h.2.2.2.1, h.2.2.2.2 c6Bad (Or.inl rfl)⟩

/-! ## Claim C7 about the context -/

/-- C7: for every finite sequence of `set`/`get` operations on one
Context and every key, a `get` returns the value of the most recent
preceding `set` for that key; with no preceding `set` and the key absent
from the initial data, `get` returns the supplied default. -/
theorem c7_context_get_set (init : ActionContext) (ops : List CtxOp)
    (key : String) (d : PyVal) :
    (∀ v : PyVal, lastSet ops key = some v →
        (runOps init ops).get key d = v) ∧
      (lastSet ops key = Option.none → init.contains key = false →
        (runOps init ops).get key d = d) := by
  constructor
  · intro v hv
    rw [runOps_get, hv]
  · intro hnone habs
    rw [runOps_get, hnone]
    simp only [ActionContext.contains] at habs
    cases hg : dictGet init.data key with
    | none => simp [ActionContext.get, hg]
    | some w =>
        rw [hg] at habs
        simp at habs

def c7Ops : List CtxOp :=
  [CtxOp.set "a" (PyVal.int 1), CtxOp.get "a" PyVal.none,
   CtxOp.set "a" (PyVal.int 2), CtxOp.set "b" (PyVal.str "x")]

theorem c7_witness :
    (runOps ⟨[]⟩ c7Ops).get "a" PyVal.none = PyVal.int 2 ∧
      (runOps ⟨[]⟩ c7Ops).get "zzz" (PyVal.str "dflt") = PyVal.str "dflt" :=
  ⟨(c7_context_get_set ⟨[]⟩ c7Ops "a" PyVal.none).1 (PyVal.int 2) rfl,
   (c7_context_get_set ⟨[]⟩ c7Ops "zzz" (PyVal.str "dflt")).2 rfl rfl⟩

/-! ## Claim C8 about registry snapshots -/

def c8ToolT : ToolRec := ⟨"t", [], ""⟩

def c8ToolX : ToolRec := ⟨"x", [], ""⟩

/-- A world holding just the module-level `_registered_tools` dict. -/
def c8World0 : RegWorld := ⟨[(0, [])], 1, 0⟩

def c8World1 : RegWorld := registerTool c8World0 c8ToolT

def c8Init : PythonActionRegistry × RegWorld :=
  PythonActionRegistry.init c8World1

def c8Got : Nat × PythonActionRegistry × RegWorld :=
  (c8Init.1).get_tools c8Init.2

/-- The client adds an entry to the collection `get_tools` returned. -/
def c8Mutated : RegWorld := mutateRef c8Got.2.2 c8Got.1 "x" c8ToolX

/-- C8 (counterexample): `PythonActionRegistry.get_tools` returns the
internal `self._tools` dict object itself, so a mutation applied to the
returned collection is visible to the registry's subsequent lookup:
before the mutation `get_tool "x"` is absent, afterwards it is present,
refuting the claim that any mutation of the returned collection leaves
the registry's contents unchanged. -/
theorem c8_counterexample :
    (c8Got.2.1.get_tool c8Got.2.2 "x").1 = Option.none ∧
      (c8Got.2.1.get_tool c8Mutated "x").1 = some c8ToolX := by
  decide

/-- C8 (amended): `get_registered_tools` (the global registry's list
operation) returns a snapshot copy — mutating the returned dict leaves
the global registry's contents unchanged — but
`PythonActionRegistry.get_tools` returns its internal mapping itself,
so a mutation applied to the returned collection is observed by that
registry's subsequent `get_tools`/`get_tool`. -/
theorem c8_snapshot_and_aliasing (w : RegWorld) (hwf : w.WF) :
    (∀ (k : String) (rec : ToolRec),
        (mutateRef (get_registered_tools w).2 (get_registered_tools w).1
            k rec).deref w.globalReg = w.deref w.globalReg) ∧
      (∀ reg : PythonActionRegistry, w.deref reg.toolsRef ≠ [] →
        reg.get_tools w = (reg.toolsRef, reg, w) ∧
        (∀ (k : String) (rec : ToolRec),
          (reg.get_tool (mutateRef w reg.toolsRef k rec) k).1 = some rec)) := by
  have hne : w.next ≠ w.globalReg := Nat.ne_of_gt hwf.1
  constructor
  · intro k rec
    show derefH (writeH (w.heap ++ [(w.next, w.deref w.globalReg)]) w.next _)
        w.globalReg = _
    rw [derefH_write_ne _ _ _ _ hne, derefH_append_ne _ _ _ _ hne]
    rfl
  · intro reg hreg
    have hgt : reg.get_tools w = (reg.toolsRef, reg, w) := by
      rw [PythonActionRegistry.get_tools, if_neg hreg]
    refine ⟨hgt, fun k rec => ?_⟩
    have hder : (mutateRef w reg.toolsRef k rec).deref reg.toolsRef =
        dictSet (w.deref reg.toolsRef) k rec := by
      show derefH (writeH w.heap reg.toolsRef _) reg.toolsRef = _
      exact derefH_write_self w.heap reg.toolsRef _ hreg
    have hgt' : reg.get_tools (mutateRef w reg.toolsRef k rec) =
        (reg.toolsRef, reg, mutateRef w reg.toolsRef k rec) := by
      rw [PythonActionRegistry.get_tools, if_neg]
      rw [hder]
      exact dictSet_ne_nil _ _ _
    show (dictGet ((reg.get_tools (mutateRef w reg.toolsRef k rec)).2.2.deref
        (reg.get_tools (mutateRef w reg.toolsRef k rec)).1) k, _, _).1 = _
    rw [hgt']
    show dictGet ((mutateRef w reg.toolsRef k rec).deref reg.toolsRef) k = _
    rw [hder, dictGet_dictSet, if_pos rfl]

theorem c8_witness :
    (mutateRef (get_registered_tools c8Got.2.2).2
        (get_registered_tools c8Got.2.2).1 "x" c8ToolX).deref
        c8Got.2.2.globalReg = c8Got.2.2.deref c8Got.2.2.globalReg ∧
      c8Got.2.1.get_tools c8Got.2.2 = (c8Got.2.1.toolsRef, c8Got.2.1, c8Got.2.2) ∧
      (c8Got.2.1.get_tool (mutateRef c8Got.2.2 c8Got.2.1.toolsRef "x" c8ToolX)
        "x").1 = some c8ToolX := by
  have h := c8_snapshot_and_aliasing c8Got.2.2
    (by
      simp only [RegWorld.WF]
      exact ⟨by decide, by decide⟩)
  have h2 := h.2 c8Got.2.1 (by decide)
  exact ⟨h.1 "x" c8ToolX, h2.1, h2.2 "x" c8ToolX⟩

/-! ## Claim C9 about the system instruction -/

/-- The system instruction as claim C9 literally describes it: each
Goal's name and description concatenated, consecutive goals separated
by a blank line. -/
def claimedSystemPrompt (goals : List Goal) : String :=
  String.intercalate "\n\n" (goals.map fun g => g.name ++ g.description)

def c9Model : Model := fun _ => ⟨"model", [Part.text "done"]⟩

def c9State : AgentState := ⟨[⟨"A", "B"⟩], [], ⟨[]⟩, []⟩

/-- C9 (counterexample): the source renders each goal as a markdown
section `"## " ++ name ++ "\n" ++ description`, so the system
instruction actually sent is `"## A\nB"`, not the plain concatenation
`"AB"` the claim describes. -/
theorem c9_counterexample :
    (process c9Model c9State "hi").callLog.map GenRequest.system =
        [buildSystemPrompt [⟨"A", "B"⟩]] ∧
      buildSystemPrompt [⟨"A", "B"⟩] = "## A\nB" ∧
      claimedSystemPrompt [⟨"A", "B"⟩] = "AB" ∧
      buildSystemPrompt [⟨"A", "B"⟩] ≠ claimedSystemPrompt [⟨"A", "B"⟩] := by
  refine ⟨rfl, rfl, rfl, by decide⟩

/-- C9 (amended): the system instruction sent with each model call is
the agent's goals rendered in registration order, each as
`"## " ++ name ++ "\n" ++ description`, with consecutive goals
separated by a blank line. -/
theorem c9_system_instruction (model : Model) (st : AgentState)
    (input : String) :
    ∀ e ∈ (process model st input).callLog,
      e.system = String.intercalate "\n\n"
        (st.goals.map fun g => "## " ++ g.name ++ "\n" ++ g.description) := by
  intro e he
  obtain ⟨extra, hcl, _, hall⟩ := agentLoop_log_decomp model st.tools
    (firstRequest st input).tools (firstRequest st input).system 10
    (firstRequest st input).messages st.ctx []
  have hree : (process model st input).callLog = [] ++ extra := hcl
  rw [hree, List.nil_append] at he
  exact (hall e he).2.2

def c9Req : GenRequest :=
  ⟨[Content.mk "user" [Part.text "hi"]], Option.none, "## A\nB"⟩

theorem c9_witness :
    c9Req.system = String.intercalate "\n\n"
      (c9State.goals.map fun g => "## " ++ g.name ++ "\n" ++ g.description) := by
  have hlog : (process c9Model c9State "hi").callLog = [c9Req] := rfl
  exact c9_system_instruction c9Model c9State "hi" c9Req
    (by rw [hlog]; exact List.mem_singleton_self c9Req)

/-! ## Claim C10 about conversation history across process calls -/

/-- C10: the conversation message list of an Agent instance is
append-only across `process` calls: the pre-call messages are a prefix
of the post-call messages, every model call within a `process` call
already contains the user turn of that call, and a second `process`
call's first model request carries the complete history of the first
call followed by the new user turn. -/
theorem c10_history_append_only (model : Model) (st : AgentState)
    (in1 in2 : String) :
    st.messages <+: (process model st in1).state.messages ∧
      (process model st in1).state.messages <+:
        (process model (process model st in1).state in2).state.messages ∧
      (∀ e ∈ (process model st in1).callLog,
        st.messages ++ [Content.mk "user" [Part.text in1]] <+: e.messages) ∧
      (process model (process model st in1).state in2).callLog.head? =
        some (firstRequest (process model st in1).state in2) := by
  obtain ⟨extra1, hcl1, _, hall1⟩ := agentLoop_log_decomp model st.tools
    (firstRequest st in1).tools (firstRequest st in1).system 10
    (firstRequest st in1).messages st.ctx []
  obtain ⟨extra2, hcl2, hhead2, _⟩ := agentLoop_log_decomp model
    (process model st in1).state.tools
    (firstRequest (process model st in1).state in2).tools
    (firstRequest (process model st in1).state in2).system 10
    (firstRequest (process model st in1).state in2).messages
    (process model st in1).state.ctx []
  refine ⟨?_, ?_, ?_, ?_⟩
  · refine List.IsPrefix.trans ⟨[Content.mk "user" [Part.text in1]], rfl⟩ ?_
    exact agentLoop_messages_extend model st.tools (firstRequest st in1).tools
      (firstRequest st in1).system 10 (firstRequest st in1).messages st.ctx []
  · refine List.IsPrefix.trans ⟨[Content.mk "user" [Part.text in2]], rfl⟩ ?_
    exact agentLoop_messages_extend model (process model st in1).state.tools
      (firstRequest (process model st in1).state in2).tools
      (firstRequest (process model st in1).state in2).system 10
      (firstRequest (process model st in1).state in2).messages
      (process model st in1).state.ctx []
  · intro e he
    have hree : (process model st in1).callLog = [] ++ extra1 := hcl1
    rw [hree, List.nil_append] at he
    exact (hall1 e he).1
  · have hree : (process model (process model st in1).state in2).callLog =
        [] ++ extra2 := hcl2
    rw [hree, List.nil_append]
    cases extra2 with
    | nil => cases hhead2 (by omega)
    | cons a rest =>
        have := hhead2 (by omega)
        simpa using this

theorem c10_witness :
    ([] : List Content) <+:
        (process textReplyModel emptyAgentState "a").state.messages ∧
      (process textReplyModel emptyAgentState "a").state.messages <+:
        (process textReplyModel
          (process textReplyModel emptyAgentState "a").state "b").state.messages ∧
      ([] : List Content) ++ [Content.mk "user" [Part.text "a"]] <+:
        (firstRequest emptyAgentState "a").messages ∧
      (process textReplyModel
          (process textReplyModel emptyAgentState "a").state "b").callLog.head? =
        some (firstRequest
          (process textReplyModel emptyAgentState "a").state "b") := by
  have h := c10_history_append_only textReplyModel emptyAgentState "a" "b"
  refine ⟨h.1, h.2.1, ?_, h.2.2.2⟩
  have hlog : (process textReplyModel emptyAgentState "a").callLog =
      [firstRequest emptyAgentState "a"] := rfl
  exact h.2.2.1 (firstRequest emptyAgentState "a")
    (by rw [hlog]; exact List.mem_singleton_self _)

end InvoiceAgent
